import Mathlib

set_option maxRecDepth 20000

/-! # Verification of the TalentScout question-generation pipeline

Shallow embedding of `chatbot_logic.py`, `prompts.py` and the saving logic of
`app.py`.  Python strings are modelled as `String` at the interface and as
`List Char` internally; every primitive mirrors the corresponding Python
string operation on the inputs the program handles (ASCII text, `\n`/`\r`
line breaks). -/

/-- The whitespace characters removed by Python `str.strip`. -/
def isPyWhitespace (c : Char) : Bool :=
  c == ' ' || c == '\t' || c == '\n' || c == '\r' || c == '\x0b' || c == '\x0c'

/-- Python `str.strip` on a character list. -/
def trimL (l : List Char) : List Char :=
  ((l.dropWhile isPyWhitespace).reverse.dropWhile isPyWhitespace).reverse

/-- Python `str.lower` on a character list (basic-latin letters, as `Char.toLower`). -/
def toLowerL (l : List Char) : List Char := l.map Char.toLower

/-- Split a character list at every character satisfying `p`, dropping the
separators.  Mirrors Python `str.splitlines` for texts whose line breaks are
LF or CR; a CRLF pair yields one extra empty piece, which the parser's
blank-line filter removes again, so the parser is unaffected. -/
def splitOnPred (p : Char → Bool) : List Char → List (List Char)
  | [] => [[]]
  | c :: t =>
    match splitOnPred p t with
    | [] => [[]]
    | h :: r => if p c then [] :: h :: r else (c :: h) :: r

/-- First occurrence of `sep`: the part before it and the raw remainder after
it.  For `sep` occurring in `x` this returns
`(x.split(sep)[0], sep.join(x.split(sep)[1:]))` in Python terms, since
rejoining the later pieces with `sep` restores the text after the first
occurrence. -/
def splitFirst (sep : List Char) : List Char → Option (List Char × List Char)
  | [] => if sep.isEmpty then some ([], []) else none
  | c :: t =>
    if sep.isPrefixOf (c :: t) then some ([], (c :: t).drop sep.length)
    else
      match splitFirst sep t with
      | some (pre, post) => some (c :: pre, post)
      | none => none

/-- Python `sep.join`. -/
def joinSep (sep : List Char) : List (List Char) → List Char
  | [] => []
  | [l] => l
  | l :: r => l ++ sep ++ joinSep sep r

/-- Decimal digit rendering with fuel; `fuel ≥ n` makes it Python `str(n)`. -/
def numCharsGo : Nat → Nat → List Char
  | 0, n => [Char.ofNat (48 + n % 10)]
  | fuel + 1, n =>
    if n < 10 then [Char.ofNat (48 + n)]
    else numCharsGo fuel (n / 10) ++ [Char.ofNat (48 + n % 10)]

/-- Python `str(n)` for a natural number. -/
def numChars (n : Nat) : List Char := numCharsGo n n

/-- Python substring test: does `needle` occur inside the second list? -/
def containsSub (needle : List Char) : List Char → Bool
  | [] => needle.isEmpty
  | c :: t => needle.isPrefixOf (c :: t) || containsSub needle t

/-! ## The question bank (`chatbot_logic.RULE_BASED_QUESTION_BANK`) -/

/-- The offline question bank, in dict insertion order. -/
def RULE_BASED_QUESTION_BANK : List (String × List String) :=
  [("python",
    ["Explain the difference between a list and a tuple in Python.",
     "How does Python's GIL affect multi-threaded programs?",
     "Write a function to reverse a string and explain its complexity."]),
   ("django",
    ["What is Django's MTV architecture? How is it different from MVC?",
     "How do you manage database migrations in Django?",
     "Explain middlewares in Django and a use-case for creating a custom middleware."]),
   ("react",
    ["What are React hooks and why were they introduced?",
     "Explain the difference between props and state in React.",
     "How does the virtual DOM work?"]),
   ("sql",
    ["Write a SQL query to find duplicate rows in a table.",
     "Explain the difference between INNER JOIN and LEFT JOIN.",
     "What is indexing and how does it improve query performance?"]),
   ("aws",
    ["What is IAM and why is it important?",
     "Describe how S3 versioning works and a use-case.",
     "Compare EC2 and Lambda for running compute workloads."])]

/-- The bank with keys and questions as character lists. -/
def bankPairsL : List (List Char × List (List Char)) :=
  RULE_BASED_QUESTION_BANK.map (fun p => (p.1.toList, p.2.map String.toList))

/-- The bank keys in dict order (the iteration order of `.keys()`). -/
def bankKeysL : List (List Char) := bankPairsL.map Prod.fst

/-- `RULE_BASED_QUESTION_BANK.get(tech, [])`. -/
def bankLookupL (k : List Char) : List (List Char) :=
  ((bankPairsL.find? (fun p => p.1 == k)).map Prod.snd).getD []

/-- The fixed guidance string of `_rule_based_from_prompt`. -/
def FALLBACK_MESSAGE : String :=
  "I couldn't use an LLM backend. Here's a helpful fallback: Please list your tech stack (e.g., Python, Django, React). I can generate technical questions once you provide technologies."

/-- `"\n".join(f"{i+1}. {q}" ...)`: the numbered-list rendering. -/
def numberLines (qs : List (List Char)) : List (List Char) :=
  qs.enum.map (fun p => numChars (p.1 + 1) ++ '.' :: ' ' :: p.2)

/-- Join lines with newlines. -/
def joinNl (ls : List (List Char)) : List Char := joinSep ['\n'] ls

/-- The bank keys matched as substrings of the lowered prompt, in bank order. -/
def matchedKeysL (lowerPrompt : List Char) : List (List Char) :=
  bankKeysL.filter (fun k => containsSub k lowerPrompt)

/-- `LLMWrapper._rule_based_from_prompt` at character-list level. -/
def ruleBasedL (prompt : List Char) : List Char :=
  let matched := matchedKeysL (toLowerL prompt)
  if matched.isEmpty then FALLBACK_MESSAGE.toList
  else joinNl (numberLines (matched.flatMap (fun k => (bankLookupL k).take 3)))

/-- `LLMWrapper._rule_based_from_prompt`. -/
def ruleBasedFromPrompt (prompt : String) : String := String.mk (ruleBasedL prompt.toList)

/-- The matched bank keys of a prompt, as strings. -/
def matchedKeys (prompt : String) : List String :=
  (matchedKeysL (toLowerL prompt.toList)).map String.mk

/-- `RULE_BASED_QUESTION_BANK.get(tech, [])`, string level. -/
def bankLookup (k : String) : List String := (bankLookupL k.toList).map String.mk

/-- Join questions as the numbered list string used by `chatbot_logic`. -/
def numberedJoin (qs : List String) : String :=
  String.mk (joinNl (numberLines (qs.map String.toList)))

/-! ## The prompt builder (`prompts.question_prompt_template`) -/

/-- Text of the template before the joined tech stack. -/
def PROMPT_HEAD : String :=
  "You are a hiring-assistant that generates short technical screening questions.\nCandidate tech-stack: "

/-- Text of the template between the tech stack and the question count. -/
def PROMPT_MID : String := "\nTask: For each technology listed, produce "

/-- Text of the template after the question count. -/
def PROMPT_TAIL : String :=
  " concise, clear, and varied screening questions (conceptual, short coding/design, and troubleshooting/ops where applicable). Number each question and label which technology it is for. Do not ask for personal data. Keep each question under 40 words.\n\nOutput format example:\n1. [Python] Explain ...\n2. [Django] How would you ...\n\nBegin generating now."

/-- `prompts.question_prompt_template` at character-list level. -/
def question_prompt_templateL (techs : List (List Char)) (numQ : Nat) : List Char :=
  PROMPT_HEAD.toList ++ joinSep (", ".toList) techs ++ PROMPT_MID.toList ++ numChars numQ
    ++ PROMPT_TAIL.toList

/-- `prompts.question_prompt_template`. -/
def question_prompt_template (techs : List String) (numQ : Nat := 3) : String :=
  String.mk (question_prompt_templateL (techs.map String.toList) numQ)

/-! ## Token normalization (`chatbot_logic.simple_normalize_tech`) -/

/-- `t.strip().lower()` for one token. -/
def normalizeTok (t : String) : String := String.mk (toLowerL (trimL t.toList))

/-- `simple_normalize_tech`: the comprehension keeps entries that are truthy
before stripping and maps `strip().lower()` over them. -/
def simple_normalize_tech : List String → List String
  | [] => []
  | t :: rest =>
    if t = "" then simple_normalize_tech rest
    else normalizeTok t :: simple_normalize_tech rest

/-! ## The response parser (`Chatbot._parse_questions`) -/

/-- Does the line start, after leading whitespace, with a bullet marker?
Mirrors `cleaned.lstrip().startswith(("-", "*"))`. -/
def startsWithBullet (l : List Char) : Bool :=
  match (l.dropWhile isPyWhitespace).head? with
  | some c => c == '-' || c == '*'
  | none => false

/-- One separator pass: if `sep` occurs and the piece before its first
occurrence is a non-empty digit string, keep only what follows the first
occurrence, stripped. -/
def stripNumOnce (sep : List Char) (cleaned : List Char) : List Char :=
  match splitFirst sep cleaned with
  | some (pre, post) => if !pre.isEmpty && pre.all Char.isDigit then trimL post else cleaned
  | none => cleaned

/-- The per-line cleaning of `_parse_questions`: bullet strip, then the three
numbered separators in order, each applied to the running value. -/
def cleanLine (line : List Char) : List Char :=
  let c0 :=
    if startsWithBullet line then trimL (line.dropWhile (fun c => c == '-' || c == '*' || c == ' '))
    else line
  stripNumOnce [' ', '-', ' '] (stripNumOnce [')', ' '] (stripNumOnce ['.', ' '] c0))

/-- The non-blank stripped lines of the text. -/
def nonBlankL (text : List Char) : List (List Char) :=
  ((splitOnPred (fun c => c == '\n' || c == '\r') text).map trimL).filter (fun l => !l.isEmpty)

/-- The parser's accumulation loop over the lines. -/
def parseLoopL (lines : List (List Char)) : List (List Char) :=
  lines.foldl (fun acc line =>
    let cleaned := cleanLine line
    if cleaned.length > 10 then acc ++ [cleaned] else acc) []

/-- `Chatbot._parse_questions` at character-list level. -/
def parseQuestionsL (text : List Char) : List (List Char) := (parseLoopL (nonBlankL text)).take 15

/-- `Chatbot._parse_questions`. -/
def parseQuestions (text : String) : List String := (parseQuestionsL text.toList).map String.mk

/-! ## The provider client (`chatbot_logic.LLMWrapper`) -/

/-- Outcome of one external completion request: the provider's raw text, or
any raised failure (network, auth, quota, malformed response). -/
inductive ExtCall where
  | success (text : String)
  | failure

/-- The wrapper state fixed at construction. -/
structure LLMWrapper where
  provider : String
  openaiAvailable : Bool
  azureKey : Option String
  azureEndpoint : Option String

/-- Truthiness of an `os.getenv` result: set and non-empty. -/
def envTruthy (v : Option String) : Bool := v.getD "" != ""

/-- Python `str.lower`. -/
def lowerS (s : String) : String := String.mk (toLowerL s.toList)

/-- Python `str.strip`. -/
def trimS (s : String) : String := String.mk (trimL s.toList)

/-- `LLMWrapper.__init__`: provider detection from `FORCE_PROVIDER`,
`OPENAI_API_KEY`, `AZURE_OPENAI_KEY`, `AZURE_OPENAI_ENDPOINT` and the
availability of the `openai` package. -/
def mkLLMWrapper (forceProvider openaiKey azureKey azureEndpoint : Option String)
    (openaiAvailable : Bool) : LLMWrapper :=
  let p0 := lowerS (forceProvider.getD "")
  let p1 := if p0 = "" then "auto" else p0
  let provider :=
    if p1 = "auto" then
      if envTruthy openaiKey then "openai"
      else if envTruthy azureKey ∧ envTruthy azureEndpoint then "azure_openai"
      else "rule_based"
    else p1
  { provider := provider, openaiAvailable := openaiAvailable,
    azureKey := azureKey, azureEndpoint := azureEndpoint }

/-- `LLMWrapper.generate`: the cloud branches strip the provider text on
success and degrade to the offline heuristic on any failure; every other
provider value runs the rule-based path directly.  The external request's
outcome is the `ext` argument. -/
def LLMWrapper.generate (w : LLMWrapper) (ext : ExtCall) (prompt : String)
    (_maxTokens : Nat := 300) : String :=
  if w.provider = "openai" ∧ w.openaiAvailable then
    match ext with
    | .success t => trimS t
    | .failure => ruleBasedFromPrompt prompt
  else if w.provider = "azure_openai" ∧ envTruthy w.azureKey ∧ envTruthy w.azureEndpoint then
    match ext with
    | .success t => trimS t
    | .failure => ruleBasedFromPrompt prompt
  else ruleBasedFromPrompt prompt

/-! ## The conversation handler (`chatbot_logic.Chatbot`) -/

/-- The chatbot state: the wrapper, the (unused) context, and the most
recently generated question list. -/
structure Chatbot where
  llm : LLMWrapper
  context : List String
  lastGeneratedQuestions : List String

/-- `Chatbot.__init__`. -/
def mkChatbot (llm : LLMWrapper) : Chatbot :=
  { llm := llm, context := [], lastGeneratedQuestions := [] }

/-- `Chatbot.generate_questions_for_stack`: normalize, build the prompt,
generate with a 400-token budget, parse, store the parse result, and format
the reply. -/
def Chatbot.generate_questions_for_stack (bot : Chatbot) (ext : ExtCall) (techs : List String) :
    String × Chatbot :=
  let techsNorm := simple_normalize_tech techs
  let prompt := question_prompt_template techsNorm 3
  let response := bot.llm.generate ext prompt 400
  let parsed := parseQuestions response
  let bot' := { bot with lastGeneratedQuestions := parsed }
  if !parsed.isEmpty then
    ("Here are the generated technical questions:\n" ++ numberedJoin parsed, bot')
  else (response, bot')

/-! ## Saving an anonymized record (`app.py` `input_area`) -/

/-- The candidate dict assembled by the form in `app.py`. -/
structure Candidate where
  full_name : String
  email : String
  phone : String
  years_experience : Rat
  desired_positions : List String
  location : String
  tech_stack : List String
  created_at : String

/-- The persisted record: the (masked) candidate dict plus its questions key. -/
structure SavedRecord where
  candidate : Candidate
  questions : List String

/-- `input_area`: mask email and phone when they are truthy, then attach the
questions list. -/
def anonymizeAndAttach (c : Candidate) (qs : List String) : SavedRecord :=
  let c1 := if c.email != "" then { c with email := "redacted@example.com" } else c
  let c2 := if c1.phone != "" then { c1 with phone := "REDACTED" } else c1
  { candidate := c2, questions := qs }

/-- `input_area`: the save happens only when the chatbot holds a non-empty
generated question list. -/
def maybeSave (bot : Chatbot) (c : Candidate) : Option SavedRecord :=
  if !bot.lastGeneratedQuestions.isEmpty then
    some (anonymizeAndAttach c bot.lastGeneratedQuestions)
  else none

/-- The cleaned lines of the parser, string level: the non-blank stripped
lines of the text with bullet and numbering markers removed. -/
def cleanedLines (text : String) : List String :=
  ((nonBlankL text.toList).map cleanLine).map String.mk

/-- Conditions on a question under which the numbered-list rendering of
`_rule_based_from_prompt` parses back verbatim through `_parse_questions`.
Every question of the bank satisfies them (checked by evaluation). -/
def parseSafeQ (q : List Char) : Prop :=
  q ≠ [] ∧ 10 < q.length ∧ trimL q = q ∧
  isPyWhitespace (q.headD 'x') = false ∧
  isPyWhitespace (q.getLastD 'x') = false ∧
  (∀ c ∈ q, (c == '\n' || c == '\r') = false) ∧
  startsWithBullet q = false ∧
  stripNumOnce [')', ' '] q = q ∧
  stripNumOnce [' ', '-', ' '] q = q

instance (q : List Char) : Decidable (parseSafeQ q) := by
  unfold parseSafeQ
  infer_instance

/-- The bank entries the offline fallback selects for a list of bank-key
tokens: the bank's own order, with `python` and `django` always present
because the built prompt's output-format example mentions them. -/
def offlineMatchedBank (techs : List String) : List (String × List String) :=
  RULE_BASED_QUESTION_BANK.filter
    (fun p => p.1 == "python" || p.1 == "django" || techs.contains p.1)

/-! ## Helper lemmas -/

theorem parseLoop_go (lines : List (List Char)) (acc : List (List Char)) :
    lines.foldl (fun acc line =>
      let cleaned := cleanLine line
      if cleaned.length > 10 then acc ++ [cleaned] else acc) acc
      = acc ++ (lines.map cleanLine).filter (fun c => c.length > 10) := by
  induction lines generalizing acc with
  | nil => simp
  | cons l rest ih =>
    simp only [List.foldl_cons, List.map_cons, List.filter_cons]
    by_cases h : (cleanLine l).length > 10
    · rw [if_pos h, ih]
      simp [h]
    · rw [if_neg h, ih]
      simp [h]

theorem parseQuestionsL_eq_filter (text : List Char) :
    parseQuestionsL text
      = (((nonBlankL text).map cleanLine).filter (fun c => c.length > 10)).take 15 := by
  unfold parseQuestionsL parseLoopL
  rw [parseLoop_go]
  simp

theorem joinNl_cons_ne_nil (x : List Char) (xs : List (List Char)) (hx : x ≠ []) :
    joinNl (x :: xs) ≠ [] := by
  cases xs with
  | nil => simpa [joinNl, joinSep] using hx
  | cons y r => simp [joinNl, joinSep]

theorem ruleBasedL_ne_nil (p : List Char) : ruleBasedL p ≠ [] := by
  unfold ruleBasedL
  by_cases h : (matchedKeysL (toLowerL p)).isEmpty
  · rw [if_pos h]
    decide
  · rw [if_neg h]
    rcases hm : matchedKeysL (toLowerL p) with _ | ⟨k, rest⟩
    · rw [hm] at h
      simp at h
    · have hk : k ∈ bankKeysL := by
        have : k ∈ matchedKeysL (toLowerL p) := by
          rw [hm]; exact List.mem_cons_self k rest
        exact List.mem_of_mem_filter this
      have h3 : ∀ k ∈ bankKeysL, (bankLookupL k).take 3 ≠ [] := by decide
      rcases hq : (bankLookupL k).take 3 with _ | ⟨q, qs⟩
      · exact absurd hq (h3 k hk)
      · rw [List.flatMap_cons, hq]
        simp only [List.cons_append, numberLines, List.enum_cons]
        apply joinNl_cons_ne_nil
        simp

/-! ## Claim theorems -/

/-- C2 counterexample: on the exact input `"1. Explain X\n2. Explain Y"`, the
parser does not return `["Explain X", "Explain Y"]` — both cleaned lines are
only 9 characters long and are discarded as noise. -/
theorem parse_example_pair_counterexample :
    parseQuestions "1. Explain X\n2. Explain Y" ≠ ["Explain X", "Explain Y"] := by decide

/-- C2 amended: the parser returns `[]` on the exact input
`"1. Explain X\n2. Explain Y"`, because each cleaned line has 9 characters
and only lines longer than 10 characters are kept; with cleaned lines longer
than 10 characters the numbering is stripped and the pair is returned. -/
theorem parse_example_pair :
    parseQuestions "1. Explain X\n2. Explain Y" = [] ∧
    parseQuestions "1. Explain Xylophones\n2. Explain Yodeling"
      = ["Explain Xylophones", "Explain Yodeling"] := by decide

/-- C3 counterexample: a cleaned line of exactly 10 characters is dropped,
not kept — the code keeps a line only when its length is strictly greater
than 10. -/
theorem parse_ten_char_line_counterexample :
    ("abcdefghij" : String).length = 10 ∧ parseQuestions "abcdefghij" = [] ∧
    parseQuestions "abcdefghij" ≠ ["abcdefghij"] := by decide

/-- C3 amended: the parser keeps exactly the cleaned lines whose length is
strictly greater than 10 (so a 10-character line is dropped), in their
original relative order, truncated to the first 15 entries. -/
theorem parse_keeps_lines_longer_than_ten (text : String) :
    parseQuestions text = ((cleanedLines text).filter (fun s => s.length > 10)).take 15 ∧
    (parseQuestions text).Sublist (cleanedLines text) := by
  have hmain : parseQuestions text
      = ((cleanedLines text).filter (fun s => s.length > 10)).take 15 := by
    unfold parseQuestions cleanedLines
    rw [parseQuestionsL_eq_filter]
    conv_rhs => rw [List.filter_map, ← List.map_take]
    rfl
  refine ⟨hmain, ?_⟩
  rw [hmain]
  exact (List.take_sublist _ _).trans (List.filter_sublist _)

/-- C9 counterexample: a whitespace-only token survives normalization as the
empty string, because the truthiness filter runs before stripping. -/
theorem normalize_whitespace_token_counterexample :
    simple_normalize_tech ["  "] = [""] ∧ "" ∈ simple_normalize_tech ["  "] := by decide

/-- C9 amended: `simple_normalize_tech` drops exactly the entries that are
empty before trimming, and maps `strip().lower()` over the rest; an entry
that is whitespace-only therefore survives as the empty string. -/
theorem normalize_filters_before_trimming (l : List String) :
    simple_normalize_tech l = (l.filter (fun t => t ≠ "")).map (fun t => lowerS (trimS t)) := by
  induction l with
  | nil => rfl
  | cons t rest ih =>
    by_cases h : t = ""
    · simp [simple_normalize_tech, h, ih]
    · simp [simple_normalize_tech, h, ih, normalizeTok, lowerS, trimS]

/-- C6: after every call to `generate_questions_for_stack`, the stored
question list equals exactly the parse result of the provider response of
that call, even when the parse result is empty. -/
theorem stored_questions_equal_latest_parse (bot : Chatbot) (ext : ExtCall)
    (techs : List String) :
    ((bot.generate_questions_for_stack ext techs).2).lastGeneratedQuestions
      = parseQuestions
          (bot.llm.generate ext (question_prompt_template (simple_normalize_tech techs) 3) 400) := by
  simp only [Chatbot.generate_questions_for_stack]
  split <;> rfl

/-- C1: evaluation at the failing input.  For the stack `["Haskell"]`, which
contains no Question-Bank token, the offline fallback on the built prompt
does not return the guidance string: the prompt's own output-format example
lines contain `[Python]` and `[Django]`, so the keyword scan always matches
those two bank keys and returns their six canned questions. -/
theorem offline_fallback_matches_prompt_example :
    ruleBasedFromPrompt (question_prompt_template (simple_normalize_tech ["Haskell"]) 3)
      = "1. Explain the difference between a list and a tuple in Python.\n2. How does Python's GIL affect multi-threaded programs?\n3. Write a function to reverse a string and explain its complexity.\n4. What is Django's MTV architecture? How is it different from MVC?\n5. How do you manage database migrations in Django?\n6. Explain middlewares in Django and a use-case for creating a custom middleware." ∧
    ruleBasedFromPrompt (question_prompt_template (simple_normalize_tech ["Haskell"]) 3)
      ≠ FALLBACK_MESSAGE := by decide

/-- C5 counterexample: with the first cloud provider selected and available,
a successful external completion whose text is blank makes `generate` return
the empty string, so `generate` does not return a non-empty string for every
input. -/
theorem generate_empty_on_blank_cloud_success :
    (mkLLMWrapper none (some "sk-test") none none true).provider = "openai" ∧
    (mkLLMWrapper none (some "sk-test") none none true).generate (ExtCall.success " ")
      "Generate questions for python" 300 = "" := by decide

/-- C5 amended: `generate` is a total function (it never raises); the
rule-based path always returns a non-empty string; with no override and no
credentials the wrapper selects `rule_based` and `generate` returns the
rule-based, non-empty result for every prompt; and on any external failure
`generate` is also non-empty.  Only the cloud success path can return an
empty string (when the provider's text strips to nothing). -/
theorem generate_offline_never_empty :
    (∀ prompt : String, ruleBasedFromPrompt prompt ≠ "") ∧
    (∀ av : Bool, (mkLLMWrapper none none none none av).provider = "rule_based") ∧
    (∀ (av : Bool) (ext : ExtCall) (prompt : String) (mt : Nat),
      (mkLLMWrapper none none none none av).generate ext prompt mt
        = ruleBasedFromPrompt prompt) ∧
    (∀ (av : Bool) (ext : ExtCall) (prompt : String) (mt : Nat),
      (mkLLMWrapper none none none none av).generate ext prompt mt ≠ "") ∧
    (∀ (w : LLMWrapper) (prompt : String) (mt : Nat),
      w.generate ExtCall.failure prompt mt ≠ "") := by
  have h1 : ∀ prompt : String, ruleBasedFromPrompt prompt ≠ "" := by
    intro p hcontra
    have hdata := congrArg String.data hcontra
    exact ruleBasedL_ne_nil p.toList hdata
  have h2 : ∀ av : Bool, (mkLLMWrapper none none none none av).provider = "rule_based" := by
    intro av; rfl
  have h3 : ∀ (av : Bool) (ext : ExtCall) (prompt : String) (mt : Nat),
      (mkLLMWrapper none none none none av).generate ext prompt mt
        = ruleBasedFromPrompt prompt := by
    intro av ext prompt mt
    rfl
  have h5 : ∀ (w : LLMWrapper) (prompt : String) (mt : Nat),
      w.generate ExtCall.failure prompt mt ≠ "" := by
    intro w prompt mt
    unfold LLMWrapper.generate
    split
    · exact h1 prompt
    · split
      · exact h1 prompt
      · exact h1 prompt
  refine ⟨h1, h2, h3, ?_, h5⟩
  intro av ext prompt mt
  rw [h3]
  exact h1 prompt

/-- C7: provider resolution at construction, as a function of the four
environment values: a non-empty override different from `auto` wins (after
lower-casing); otherwise a truthy first-provider key selects `openai`; else
a truthy second-provider key-and-endpoint pair selects `azure_openai`; else
`rule_based`.  The wrapper held by the chatbot is never replaced by
`generate_questions_for_stack`, so the selection is fixed for the object's
lifetime. -/
theorem provider_resolution_order :
    (∀ (f o a e : Option String) (av : Bool), lowerS (f.getD "") ≠ "" →
      lowerS (f.getD "") ≠ "auto" →
      (mkLLMWrapper f o a e av).provider = lowerS (f.getD "")) ∧
    (∀ (f o a e : Option String) (av : Bool),
      (lowerS (f.getD "") = "" ∨ lowerS (f.getD "") = "auto") → envTruthy o = true →
      (mkLLMWrapper f o a e av).provider = "openai") ∧
    (∀ (f o a e : Option String) (av : Bool),
      (lowerS (f.getD "") = "" ∨ lowerS (f.getD "") = "auto") → envTruthy o = false →
      envTruthy a = true → envTruthy e = true →
      (mkLLMWrapper f o a e av).provider = "azure_openai") ∧
    (∀ (f o a e : Option String) (av : Bool),
      (lowerS (f.getD "") = "" ∨ lowerS (f.getD "") = "auto") → envTruthy o = false →
      (envTruthy a = false ∨ envTruthy e = false) →
      (mkLLMWrapper f o a e av).provider = "rule_based") ∧
    (∀ (bot : Chatbot) (ext : ExtCall) (techs : List String),
      ((bot.generate_questions_for_stack ext techs).2).llm = bot.llm) := by
  refine ⟨?_, ?_, ?_, ?_, ?_⟩
  · intro f o a e av h1 h2
    simp only [mkLLMWrapper]
    rw [if_neg h1, if_neg h2]
  · intro f o a e av hf ho
    have hauto : (if lowerS (f.getD "") = "" then "auto" else lowerS (f.getD "")) = "auto" := by
      rcases hf with hf | hf <;> simp [hf]
    simp only [mkLLMWrapper]
    rw [hauto, if_pos rfl, if_pos ho]
  · intro f o a e av hf ho ha he
    have hauto : (if lowerS (f.getD "") = "" then "auto" else lowerS (f.getD "")) = "auto" := by
      rcases hf with hf | hf <;> simp [hf]
    simp only [mkLLMWrapper]
    rw [hauto, if_pos rfl, if_neg (by simp [ho]), if_pos ⟨ha, he⟩]
  · intro f o a e av hf ho hae
    have hauto : (if lowerS (f.getD "") = "" then "auto" else lowerS (f.getD "")) = "auto" := by
      rcases hf with hf | hf <;> simp [hf]
    simp only [mkLLMWrapper]
    rw [hauto, if_pos rfl, if_neg (by simp [ho]), if_neg ?_]
    rintro ⟨ha, he⟩
    rcases hae with h | h
    · rw [ha] at h; simp at h
    · rw [he] at h; simp at h
  · intro bot ext techs
    simp only [Chatbot.generate_questions_for_stack]
    split <;> rfl

/-- Witness for C7: each resolution branch realised at concrete environment
values. -/
theorem provider_resolution_order_witness :
    (mkLLMWrapper (some "Azure_OpenAI") (some "k") none none true).provider
        = lowerS ((some "Azure_OpenAI" : Option String).getD "") ∧
    (mkLLMWrapper none (some "sk") none none false).provider = "openai" ∧
    (mkLLMWrapper none none (some "ak") (some "ep") false).provider = "azure_openai" ∧
    (mkLLMWrapper none none (some "ak") none false).provider = "rule_based" :=
  ⟨provider_resolution_order.1 (some "Azure_OpenAI") (some "k") none none true
      (by decide) (by decide),
   provider_resolution_order.2.1 none (some "sk") none none false (Or.inl (by decide)) (by decide),
   provider_resolution_order.2.2.1 none none (some "ak") (some "ep") false (Or.inl (by decide))
      (by decide) (by decide) (by decide),
   provider_resolution_order.2.2.2.1 none none (some "ak") none false (Or.inl (by decide))
      (by decide) (Or.inr (by decide))⟩

theorem anonymize_fields (c : Candidate) (qs : List String) (he : c.email ≠ "")
    (hp : c.phone ≠ "") :
    anonymizeAndAttach c qs
      = { candidate := { c with email := "redacted@example.com", phone := "REDACTED" },
          questions := qs } := by
  have he' : (c.email != "") = true := by simpa [bne_iff_ne] using he
  have hp' : (c.phone != "") = true := by simpa [bne_iff_ne] using hp
  simp [anonymizeAndAttach, he', hp']

/-- C8: whenever a record is saved after question generation and the
candidate's email and phone are non-empty, the persisted record carries the
fixed placeholders in those two fields (and hence not the original values,
unless an original already equalled its placeholder), and the questions are
the chatbot's stored list. -/
theorem anonymized_record_masks_contact (bot : Chatbot) (c : Candidate) (r : SavedRecord)
    (hsave : maybeSave bot c = some r) (he : c.email ≠ "") (hp : c.phone ≠ "") :
    r.candidate.email = "redacted@example.com" ∧ r.candidate.phone = "REDACTED" ∧
    r.questions = bot.lastGeneratedQuestions ∧
    (c.email ≠ "redacted@example.com" → r.candidate.email ≠ c.email) ∧
    (c.phone ≠ "REDACTED" → r.candidate.phone ≠ c.phone) := by
  unfold maybeSave at hsave
  by_cases hq : bot.lastGeneratedQuestions.isEmpty
  · rw [if_neg (by simp [hq])] at hsave
    exact absurd hsave (by simp)
  · rw [if_pos (by simp [hq])] at hsave
    have hr : anonymizeAndAttach c bot.lastGeneratedQuestions = r := Option.some.inj hsave
    rw [anonymize_fields c bot.lastGeneratedQuestions he hp] at hr
    rw [← hr]
    refine ⟨rfl, rfl, rfl, fun hne habs => hne habs.symm, fun hne habs => hne habs.symm⟩

/-- Witness for C8: a concrete candidate with email `a@b.com` and phone
`555-1234` saved after a generation that produced one question. -/
theorem anonymized_record_masks_contact_witness :
    ((anonymizeAndAttach
        { full_name := "Jo Doe", email := "a@b.com", phone := "555-1234",
          years_experience := 1, desired_positions := ["dev"], location := "X",
          tech_stack := ["python"], created_at := "2026-01-01T00:00:00Z" }
        ["How does the virtual DOM work?"]).candidate.email = "redacted@example.com") ∧
    ((anonymizeAndAttach
        { full_name := "Jo Doe", email := "a@b.com", phone := "555-1234",
          years_experience := 1, desired_positions := ["dev"], location := "X",
          tech_stack := ["python"], created_at := "2026-01-01T00:00:00Z" }
        ["How does the virtual DOM work?"]).candidate.phone = "REDACTED") := by
  have h := anonymized_record_masks_contact
    { llm := mkLLMWrapper none none none none false, context := [],
      lastGeneratedQuestions := ["How does the virtual DOM work?"] }
    { full_name := "Jo Doe", email := "a@b.com", phone := "555-1234",
      years_experience := 1, desired_positions := ["dev"], location := "X",
      tech_stack := ["python"], created_at := "2026-01-01T00:00:00Z" }
    (anonymizeAndAttach
      { full_name := "Jo Doe", email := "a@b.com", phone := "555-1234",
        years_experience := 1, desired_positions := ["dev"], location := "X",
        tech_stack := ["python"], created_at := "2026-01-01T00:00:00Z" }
      ["How does the virtual DOM work?"])
    rfl (by decide) (by decide)
  exact ⟨h.1, h.2.1⟩


/-! ## Round-trip machinery: the numbered rendering parses back verbatim -/

theorem isDigit_ne (c d : Char) (h : c.isDigit = true) (hd : d.isDigit = false) : c ≠ d := by
  intro he
  rw [he, hd] at h
  simp at h

theorem ofNat_digit_isDigit (m : Nat) (h : m < 10) : (Char.ofNat (48 + m)).isDigit = true := by
  interval_cases m <;> decide

theorem numCharsGo_digits (fuel n : Nat) :
    numCharsGo fuel n ≠ [] ∧ ∀ c ∈ numCharsGo fuel n, c.isDigit = true := by
  induction fuel generalizing n with
  | zero =>
    refine ⟨by simp [numCharsGo], ?_⟩
    intro c hc
    simp only [numCharsGo, List.mem_singleton] at hc
    subst hc
    exact ofNat_digit_isDigit _ (Nat.mod_lt _ (by omega))
  | succ fuel ih =>
    by_cases h : n < 10
    · refine ⟨by simp [numCharsGo, h], ?_⟩
      intro c hc
      simp only [numCharsGo, h, if_true, List.mem_singleton] at hc
      subst hc
      exact ofNat_digit_isDigit _ h
    · constructor
      · simp [numCharsGo, h]
      · intro c hc
        simp only [numCharsGo, h, if_false] at hc
        rcases List.mem_append.mp hc with h1 | h1
        · exact (ih (n / 10)).2 c h1
        · simp only [List.mem_singleton] at h1
          subst h1
          exact ofNat_digit_isDigit _ (Nat.mod_lt _ (by omega))

theorem numChars_ne_nil (n : Nat) : numChars n ≠ [] := (numCharsGo_digits n n).1

theorem numChars_digits (n : Nat) : ∀ c ∈ numChars n, c.isDigit = true := (numCharsGo_digits n n).2

theorem digit_not_ws (c : Char) (h : c.isDigit = true) : isPyWhitespace c = false := by
  have h1 : (c == ' ') = false := by simp [isDigit_ne c ' ' h (by decide)]
  have h2 : (c == '\t') = false := by simp [isDigit_ne c '\t' h (by decide)]
  have h3 : (c == '\n') = false := by simp [isDigit_ne c '\n' h (by decide)]
  have h4 : (c == '\r') = false := by simp [isDigit_ne c '\r' h (by decide)]
  have h5 : (c == '\x0b') = false := by simp [isDigit_ne c '\x0b' h (by decide)]
  have h6 : (c == '\x0c') = false := by simp [isDigit_ne c '\x0c' h (by decide)]
  simp [isPyWhitespace, h1, h2, h3, h4, h5, h6]

theorem splitFirst_after_digits (ds q : List Char) (hd : ∀ c ∈ ds, c.isDigit = true) :
    splitFirst ['.', ' '] (ds ++ '.' :: ' ' :: q) = some (ds, q) := by
  induction ds with
  | nil => simp [splitFirst, List.isPrefixOf]
  | cons c t ih =>
    have hc : c.isDigit = true := hd c (List.mem_cons_self c t)
    have hne : (('.' : Char) == c) = false := by
      simp [(isDigit_ne c '.' hc (by decide)).symm]
    have ht := ih (fun c' hc' => hd c' (List.mem_cons_of_mem _ hc'))
    simp [splitFirst, List.isPrefixOf, hne, ht]

theorem trimL_eq_self (l : List Char) (hne : l ≠ [])
    (hh : isPyWhitespace (l.headD 'x') = false)
    (hl : isPyWhitespace (l.getLastD 'x') = false) : trimL l = l := by
  have h1 : l.dropWhile isPyWhitespace = l := by
    cases l with
    | nil => rfl
    | cons c t =>
      rw [List.dropWhile_cons, if_neg]
      simp only [List.headD_cons] at hh
      simp [hh]
  have h2 : l.reverse.dropWhile isPyWhitespace = l.reverse := by
    rcases hr : l.reverse with _ | ⟨c, t⟩
    · rfl
    · have hlast : l.getLast? = some c := by
        rw [← List.head?_reverse, hr]
        rfl
      have hc : isPyWhitespace c = false := by
        have hgl : l.getLastD 'x' = c := by
          rw [List.getLastD_eq_getLast?, hlast]
          rfl
        rwa [hgl] at hl
      rw [List.dropWhile_cons, if_neg (by simp [hc])]
  unfold trimL
  rw [h1, h2, List.reverse_reverse]

theorem startsWithBullet_digit_head (c : Char) (rest : List Char) (hc : c.isDigit = true) :
    startsWithBullet (c :: rest) = false := by
  unfold startsWithBullet
  rw [List.dropWhile_cons, if_neg (by simp [digit_not_ws c hc])]
  have e1 : (c == '-') = false := by simp [isDigit_ne c '-' hc (by decide)]
  have e2 : (c == '*') = false := by simp [isDigit_ne c '*' hc (by decide)]
  simp [e1, e2]

theorem cleanLine_numbered (ds q : List Char) (hne : ds ≠ []) (hd : ∀ c ∈ ds, c.isDigit = true)
    (hq : parseSafeQ q) : cleanLine (ds ++ '.' :: ' ' :: q) = q := by
  obtain ⟨hqne, hlen, htrim, hhead, hlast, hnl, hbul, hp2, hp3⟩ := hq
  have hb : startsWithBullet (ds ++ '.' :: ' ' :: q) = false := by
    rcases ds with _ | ⟨c, t⟩
    · exact absurd rfl hne
    · rw [List.cons_append]
      exact startsWithBullet_digit_head c _ (hd c (List.mem_cons_self c t))
  unfold cleanLine
  rw [if_neg (by simp [hb])]
  have h1 : stripNumOnce ['.', ' '] (ds ++ '.' :: ' ' :: q) = q := by
    unfold stripNumOnce
    rw [splitFirst_after_digits ds q hd]
    have hie : ds.isEmpty = false := by simp [hne]
    have hall : ds.all Char.isDigit = true := List.all_eq_true.mpr (fun c hc => hd c hc)
    dsimp only
    rw [if_pos (by simp [hie, hall])]
    exact htrim
  show stripNumOnce [' ', '-', ' ']
      (stripNumOnce [')', ' '] (stripNumOnce ['.', ' '] (ds ++ '.' :: ' ' :: q))) = q
  rw [h1, hp2, hp3]

theorem numbered_line_no_break (ds q : List Char) (hd : ∀ c ∈ ds, c.isDigit = true)
    (hnl : ∀ c ∈ q, (c == '\n' || c == '\r') = false) :
    ∀ c ∈ ds ++ '.' :: ' ' :: q, (c == '\n' || c == '\r') = false := by
  intro c hc
  rcases List.mem_append.mp hc with h | h
  · have hdig := hd c h
    have e1 : (c == '\n') = false := by simp [isDigit_ne c '\n' hdig (by decide)]
    have e2 : (c == '\r') = false := by simp [isDigit_ne c '\r' hdig (by decide)]
    simp [e1, e2]
  · rw [List.mem_cons] at h
    rcases h with rfl | h
    · decide
    · rw [List.mem_cons] at h
      rcases h with rfl | h
      · decide
      · exact hnl c h

theorem numbered_line_trim (ds q : List Char) (hne : ds ≠ []) (hd : ∀ c ∈ ds, c.isDigit = true)
    (hq : parseSafeQ q) :
    trimL (ds ++ '.' :: ' ' :: q) = ds ++ '.' :: ' ' :: q := by
  obtain ⟨hqne, _, _, _, hlast, _, _, _, _⟩ := hq
  have hq' : q.getLast? = some (q.getLastD 'x') := by
    rw [List.getLastD_eq_getLast?]
    rcases hql : q.getLast? with _ | d
    · exact absurd (List.getLast?_eq_none_iff.mp hql) hqne
    · rfl
  apply trimL_eq_self _ (by simp)
  · rcases ds with _ | ⟨c, t⟩
    · exact absurd rfl hne
    · rw [List.cons_append]
      simp only [List.headD_cons]
      exact digit_not_ws c (hd c (List.mem_cons_self c t))
  · have hgl : (ds ++ '.' :: ' ' :: q).getLast? = q.getLast? := by
      rw [List.getLast?_append]
      have hinner : ('.' :: ' ' :: q).getLast? = q.getLast? := by
        rw [show ('.' :: ' ' :: q) = ['.', ' '] ++ q from rfl, List.getLast?_append, hq']
        rfl
      rw [hinner, hq']
      rfl
    rw [List.getLastD_eq_getLast?, hgl, hq']
    exact hlast

theorem splitOnPred_ne_nil (p : Char → Bool) (l : List Char) : splitOnPred p l ≠ [] := by
  induction l with
  | nil => simp [splitOnPred]
  | cons c t ih =>
    rcases h : splitOnPred p t with _ | ⟨h0, r⟩
    · exact absurd h ih
    · simp only [splitOnPred, h]
      split <;> simp

theorem splitOnPred_no_sep (p : Char → Bool) (l : List Char) (h : ∀ c ∈ l, p c = false) :
    splitOnPred p l = [l] := by
  induction l with
  | nil => rfl
  | cons c t ih =>
    have ht := ih (fun c' hc' => h c' (List.mem_cons_of_mem _ hc'))
    simp [splitOnPred, ht, h c (List.mem_cons_self c t)]

theorem splitOnPred_glue (p : Char → Bool) (a b : List Char) (s : Char)
    (ha : ∀ c ∈ a, p c = false) (hs : p s = true) :
    splitOnPred p (a ++ s :: b) = a :: splitOnPred p b := by
  induction a with
  | nil =>
    rcases hb : splitOnPred p b with _ | ⟨h0, r⟩
    · exact absurd hb (splitOnPred_ne_nil p b)
    · simp [splitOnPred, hb, hs]
  | cons c t ih =>
    have ht := ih (fun c' hc' => ha c' (List.mem_cons_of_mem _ hc'))
    simp [splitOnPred, ht, ha c (List.mem_cons_self c t)]

theorem splitOnPred_joinNl (ls : List (List Char)) (hne : ls ≠ [])
    (h : ∀ l ∈ ls, ∀ c ∈ l, (c == '\n' || c == '\r') = false) :
    splitOnPred (fun c => c == '\n' || c == '\r') (joinNl ls) = ls := by
  induction ls with
  | nil => exact absurd rfl hne
  | cons l rest ih =>
    rcases rest with _ | ⟨l2, r2⟩
    · simp only [joinNl, joinSep]
      exact splitOnPred_no_sep _ _ (h l (List.mem_cons_self _ _))
    · have hj : joinNl (l :: l2 :: r2) = l ++ '\n' :: joinNl (l2 :: r2) := by
        simp [joinNl, joinSep]
      rw [hj, splitOnPred_glue _ _ _ _ (h l (List.mem_cons_self _ _)) (by decide)]
      rw [ih (by simp) (fun l' hl' c hc => h l' (List.mem_cons_of_mem _ hl') c hc)]

theorem snd_mem_of_mem_enumFrom {α : Type} (l : List α) :
    ∀ (n i : Nat) (q : α), (i, q) ∈ List.enumFrom n l → q ∈ l := by
  induction l with
  | nil => intro n i q h; cases h
  | cons a t ih =>
    intro n i q h
    rw [List.enumFrom_cons, List.mem_cons] at h
    rcases h with h | h
    · injection h with _ h2
      rw [h2]
      exact List.mem_cons_self a t
    · exact List.mem_cons_of_mem _ (ih (n + 1) i q h)

theorem map_cleanLine_numberLines (qs : List (List Char)) (h : ∀ q ∈ qs, parseSafeQ q) :
    (numberLines qs).map cleanLine = qs := by
  unfold numberLines
  rw [List.map_map]
  have hcong : ∀ p ∈ qs.enum,
      (cleanLine ∘ fun p => numChars (p.1 + 1) ++ '.' :: ' ' :: p.2) p = Prod.snd p := by
    rintro ⟨i, q⟩ hmem
    have hqmem : q ∈ qs := snd_mem_of_mem_enumFrom qs 0 i q hmem
    simp only [Function.comp]
    exact cleanLine_numbered (numChars (i + 1)) q (numChars_ne_nil _) (numChars_digits _)
      (h q hqmem)
  rw [List.map_congr_left hcong, List.enum_map_snd]

theorem numberLines_line_props (qs : List (List Char)) (h : ∀ q ∈ qs, parseSafeQ q) :
    ∀ l ∈ numberLines qs,
      trimL l = l ∧ l ≠ [] ∧ ∀ c ∈ l, (c == '\n' || c == '\r') = false := by
  intro l hl
  unfold numberLines at hl
  rcases List.mem_map.mp hl with ⟨⟨i, q⟩, hmem, rfl⟩
  have hqmem : q ∈ qs := snd_mem_of_mem_enumFrom qs 0 i q hmem
  have hsafe := h q hqmem
  have hnl : ∀ c ∈ q, (c == '\n' || c == '\r') = false := hsafe.2.2.2.2.2.1
  exact ⟨numbered_line_trim _ _ (numChars_ne_nil _) (numChars_digits _) hsafe, by simp,
    numbered_line_no_break _ _ (numChars_digits _) hnl⟩

theorem parse_numbered_roundtrip (qs : List (List Char)) (hne : qs ≠ [])
    (hlen : qs.length ≤ 15) (h : ∀ q ∈ qs, parseSafeQ q) :
    parseQuestionsL (joinNl (numberLines qs)) = qs := by
  have hprops := numberLines_line_props qs h
  have hlines_ne : numberLines qs ≠ [] := by
    intro hmap
    apply hne
    have hlen0 := congrArg List.length hmap
    simpa [numberLines] using hlen0
  have hsplit : splitOnPred (fun c => c == '\n' || c == '\r') (joinNl (numberLines qs))
      = numberLines qs :=
    splitOnPred_joinNl _ hlines_ne (fun l hl => (hprops l hl).2.2)
  have hnb : nonBlankL (joinNl (numberLines qs)) = numberLines qs := by
    unfold nonBlankL
    rw [hsplit]
    have hmapid : (numberLines qs).map trimL = (numberLines qs).map id :=
      List.map_congr_left (fun l hl => (hprops l hl).1)
    rw [hmapid, List.map_id]
    rw [List.filter_eq_self.mpr (fun l hl => by simp [(hprops l hl).2.1])]
  rw [parseQuestionsL_eq_filter, hnb, map_cleanLine_numberLines qs h]
  rw [List.filter_eq_self.mpr (fun q hq => by
    have := (h q hq).2.1
    simp [this])]
  rw [List.take_of_length_le hlen]

theorem sublist_flatMap_mono {α β : Type} {l₁ l₂ : List α} (f : α → List β)
    (h : l₁.Sublist l₂) : (l₁.flatMap f).Sublist (l₂.flatMap f) := by
  induction h with
  | slnil => exact List.Sublist.refl _
  | cons a hsub ih =>
    rw [List.flatMap_cons]
    exact ih.trans (List.sublist_append_right _ _)
  | cons₂ a hsub ih =>
    rw [List.flatMap_cons, List.flatMap_cons]
    exact ih.append_left _

/-- C10: round-trip of the offline path through the parser — for every
prompt matching at least one Question-Bank key, parsing the rule-based
rendering returns exactly the concatenated canned questions of the matched
keys (every bank question is longer than 10 characters and its numbering
gets fully stripped), so the stored question set equals the canned list
verbatim. -/
theorem parse_inverts_offline_rendering (prompt : String) (hm : matchedKeys prompt ≠ []) :
    parseQuestions (ruleBasedFromPrompt prompt)
      = (matchedKeys prompt).flatMap (fun k => (bankLookup k).take 3) := by
  have hMne : matchedKeysL (toLowerL prompt.toList) ≠ [] := by
    intro h0
    apply hm
    unfold matchedKeys
    rw [h0]
    rfl
  have hsafe : ∀ k ∈ bankKeysL, ∀ q ∈ (bankLookupL k).take 3, parseSafeQ q := by decide
  have hsub : (matchedKeysL (toLowerL prompt.toList)).Sublist bankKeysL := List.filter_sublist _
  have hq_all : ∀ q ∈ (matchedKeysL (toLowerL prompt.toList)).flatMap
      (fun k => (bankLookupL k).take 3), parseSafeQ q := by
    intro q hq
    rcases List.mem_flatMap.mp hq with ⟨k, hk, hq2⟩
    exact hsafe k (hsub.subset hk) q hq2
  have h3 : ∀ k' ∈ bankKeysL, (bankLookupL k').take 3 ≠ [] := by decide
  have hq_ne : (matchedKeysL (toLowerL prompt.toList)).flatMap
      (fun k => (bankLookupL k).take 3) ≠ [] := by
    rcases hM : matchedKeysL (toLowerL prompt.toList) with _ | ⟨k, rest⟩
    · exact absurd hM hMne
    · have hk : k ∈ bankKeysL := by
        apply hsub.subset
        rw [hM]
        exact List.mem_cons_self _ _
      rw [List.flatMap_cons]
      simp [List.append_eq_nil, h3 k hk]
  have hq_len : ((matchedKeysL (toLowerL prompt.toList)).flatMap
      (fun k => (bankLookupL k).take 3)).length ≤ 15 := by
    have hsubf := sublist_flatMap_mono (fun k => (bankLookupL k).take 3) hsub
    have h15 : (bankKeysL.flatMap (fun k => (bankLookupL k).take 3)).length = 15 := by decide
    exact h15 ▸ hsubf.length_le
  have hrender : ruleBasedFromPrompt prompt
      = String.mk (joinNl (numberLines ((matchedKeysL (toLowerL prompt.toList)).flatMap
          (fun k => (bankLookupL k).take 3)))) := by
    unfold ruleBasedFromPrompt
    show String.mk (if (matchedKeysL (toLowerL prompt.toList)).isEmpty then FALLBACK_MESSAGE.toList
        else joinNl (numberLines ((matchedKeysL (toLowerL prompt.toList)).flatMap
          (fun k => (bankLookupL k).take 3)))) = _
    rw [if_neg (by simpa using hMne)]
  rw [hrender]
  unfold parseQuestions
  rw [show (String.mk (joinNl (numberLines ((matchedKeysL (toLowerL prompt.toList)).flatMap
      (fun k => (bankLookupL k).take 3))))).toList
      = joinNl (numberLines ((matchedKeysL (toLowerL prompt.toList)).flatMap
          (fun k => (bankLookupL k).take 3))) from rfl]
  rw [parse_numbered_roundtrip _ hq_ne hq_len hq_all]
  unfold matchedKeys bankLookup
  rw [List.flatMap_map, List.map_flatMap]
  simp only [List.map_take]
  rfl

/-- Witness for C10 at a concrete prompt matching one bank key. -/
theorem parse_inverts_offline_rendering_witness :
    matchedKeys "please ask about sql" ≠ [] ∧
    parseQuestions (ruleBasedFromPrompt "please ask about sql")
      = (matchedKeys "please ask about sql").flatMap (fun k => (bankLookup k).take 3) :=
  ⟨by decide, parse_inverts_offline_rendering "please ask about sql" (by decide)⟩

/-! ## Substring decomposition: which bank keys a built prompt matches -/

theorem containsSub_nil (l : List Char) : containsSub [] l = true := by
  cases l <;> simp [containsSub, List.isPrefixOf]

theorem isPrefixOf_rfl_true (l : List Char) : l.isPrefixOf l = true := by
  induction l with
  | nil => rfl
  | cons c t ih => simp [List.isPrefixOf, ih]

theorem isPrefixOf_append_of (k a b : List Char) (h : k.isPrefixOf a = true) :
    k.isPrefixOf (a ++ b) = true := by
  induction k generalizing a with
  | nil => simp [List.isPrefixOf]
  | cons c t ih =>
    cases a with
    | nil => simp [List.isPrefixOf] at h
    | cons d u =>
      simp only [List.isPrefixOf, Bool.and_eq_true] at h
      rw [List.cons_append]
      simp only [List.isPrefixOf, Bool.and_eq_true]
      exact ⟨h.1, ih u h.2⟩

theorem containsSub_append_left (k a b : List Char) (h : containsSub k a = true) :
    containsSub k (a ++ b) = true := by
  induction a with
  | nil =>
    simp only [containsSub] at h
    have : k = [] := by simpa using h
    subst this
    exact containsSub_nil b
  | cons c t ih =>
    simp only [containsSub, Bool.or_eq_true] at h
    rcases h with h | h
    · have := isPrefixOf_append_of k (c :: t) b h
      rw [List.cons_append] at this
      simp [containsSub, this]
    · simp [containsSub, ih h]

theorem containsSub_append_right (k b : List Char) (h : containsSub k b = true) (a : List Char) :
    containsSub k (a ++ b) = true := by
  induction a with
  | nil => simpa using h
  | cons c t ih => simp [containsSub, ih]

theorem containsSub_self (l : List Char) : containsSub l l = true := by
  cases l with
  | nil => rfl
  | cons c t => simp [containsSub, isPrefixOf_rfl_true]

theorem isPrefixOf_split (k a b : List Char) (h : k.isPrefixOf (a ++ b) = true) :
    k.isPrefixOf a = true ∨ ∃ k2, k = a ++ k2 ∧ k2.isPrefixOf b = true := by
  induction a generalizing k with
  | nil => exact Or.inr ⟨k, rfl, h⟩
  | cons c t ih =>
    cases k with
    | nil => exact Or.inl rfl
    | cons d u =>
      rw [List.cons_append] at h
      simp only [List.isPrefixOf, Bool.and_eq_true, beq_iff_eq] at h
      obtain ⟨rfl, h2⟩ := h
      rcases ih u h2 with h3 | ⟨k2, rfl, h4⟩
      · exact Or.inl (by simp [List.isPrefixOf, h3])
      · exact Or.inr ⟨k2, by simp, h4⟩

theorem containsSub_split (k a b : List Char) (h : containsSub k (a ++ b) = true) :
    containsSub k a = true ∨ containsSub k b = true ∨
      ∃ k1 k2, k = k1 ++ k2 ∧ k1 ≠ [] ∧ k2 ≠ [] ∧ (∃ s, s ++ k1 = a) ∧
        k2.isPrefixOf b = true := by
  induction a with
  | nil => exact Or.inr (Or.inl (by simpa using h))
  | cons c t ih =>
    rw [List.cons_append] at h
    simp only [containsSub, Bool.or_eq_true] at h
    rcases h with h | h
    · rw [← List.cons_append] at h
      rcases isPrefixOf_split k (c :: t) b h with h1 | ⟨k2, rfl, h2⟩
      · exact Or.inl (by simp [containsSub, h1])
      · by_cases hk2 : k2 = []
        · subst hk2
          refine Or.inl ?_
          rw [List.append_nil]
          exact containsSub_self (c :: t)
        · exact Or.inr (Or.inr ⟨c :: t, k2, rfl, by simp, hk2, ⟨[], rfl⟩, h2⟩)
    · rcases ih h with h1 | h1 | ⟨k1, k2, rfl, hk1, hk2, ⟨s, hs⟩, hp⟩
      · exact Or.inl (by simp [containsSub, h1])
      · exact Or.inr (Or.inl h1)
      · exact Or.inr (Or.inr ⟨k1, k2, rfl, hk1, hk2, ⟨c :: s, by rw [← hs]; rfl⟩, hp⟩)

theorem mem_of_isPrefixOf (k l : List Char) (h : k.isPrefixOf l = true) : ∀ c ∈ k, c ∈ l := by
  induction k generalizing l with
  | nil => intro c hc; cases hc
  | cons d u ih =>
    cases l with
    | nil => simp [List.isPrefixOf] at h
    | cons e v =>
      simp only [List.isPrefixOf, Bool.and_eq_true, beq_iff_eq] at h
      obtain ⟨rfl, h2⟩ := h
      intro c hc
      rw [List.mem_cons] at hc
      rcases hc with rfl | hc
      · exact List.mem_cons_self _ _
      · exact List.mem_cons_of_mem _ (ih v h2 c hc)

theorem mem_of_containsSub (k l : List Char) (h : containsSub k l = true) : ∀ c ∈ k, c ∈ l := by
  induction l with
  | nil =>
    have : k = [] := by simpa [containsSub] using h
    subst this
    intro c hc
    cases hc
  | cons d t ih =>
    simp only [containsSub, Bool.or_eq_true] at h
    rcases h with h | h
    · exact mem_of_isPrefixOf k (d :: t) h
    · exact fun c hc => List.mem_cons_of_mem _ (ih h c hc)

theorem headD_mem_of_pfxOf (k2 b : List Char) (hk2 : k2 ≠ []) (h : k2.isPrefixOf b = true) :
    b.headD 'x' ∈ k2 := by
  cases k2 with
  | nil => exact absurd rfl hk2
  | cons c u =>
    cases b with
    | nil => simp [List.isPrefixOf] at h
    | cons d v =>
      simp only [List.isPrefixOf, Bool.and_eq_true, beq_iff_eq] at h
      rw [List.headD_cons, ← h.1]
      exact List.mem_cons_self _ _

theorem getLastD_mem_of_sfx (k1 a : List Char) (hk1 : k1 ≠ []) (h : ∃ s, s ++ k1 = a) :
    a.getLastD 'x' ∈ k1 := by
  obtain ⟨s, rfl⟩ := h
  have h1 : k1.getLast? = some (k1.getLastD 'x') := by
    rw [List.getLastD_eq_getLast?]
    rcases hql : k1.getLast? with _ | d
    · exact absurd (List.getLast?_eq_none_iff.mp hql) hk1
    · rfl
  have h2 : (s ++ k1).getLast? = k1.getLast? := by
    rw [List.getLast?_append, h1]
    rfl
  have h3 : (s ++ k1).getLastD 'x' = k1.getLastD 'x' := by
    rw [List.getLastD_eq_getLast?, h2, h1]
    rfl
  rw [h3]
  exact List.mem_of_mem_getLast? (by rw [h1]; exact rfl)

theorem containsSub_joinSep_split (k : List Char) (ts : List (List Char)) (hk : k ≠ [])
    (hcomma : (',' : Char) ∉ k) (hspace : (' ' : Char) ∉ k)
    (h : containsSub k (joinSep [',', ' '] ts) = true) : ∃ t ∈ ts, containsSub k t = true := by
  induction ts with
  | nil =>
    simp only [joinSep, containsSub] at h
    exact absurd (by simpa using h) hk
  | cons t rest ih =>
    rcases rest with _ | ⟨t2, r2⟩
    · exact ⟨t, List.mem_cons_self _ _, by simpa [joinSep] using h⟩
    · have hj : joinSep [',', ' '] (t :: t2 :: r2)
          = t ++ (',' :: ' ' :: joinSep [',', ' '] (t2 :: r2)) := by
        simp [joinSep]
      rw [hj] at h
      rcases containsSub_split k t _ h with h1 | h1 | ⟨k1, k2, hk12, hk1, hk2, hsfx, hpfx⟩
      · exact ⟨t, List.mem_cons_self _ _, h1⟩
      · rw [show (',' :: ' ' :: joinSep [',', ' '] (t2 :: r2))
            = [',', ' '] ++ joinSep [',', ' '] (t2 :: r2) from rfl] at h1
        rcases containsSub_split k [',', ' '] _ h1 with h2 | h2 | ⟨k1, k2, hk12, hk1, hk2, hsfx, hpfx⟩
        · have hsubchars := mem_of_containsSub k [',', ' '] h2
          rcases k with _ | ⟨c, u⟩
          · exact absurd rfl hk
          · have := hsubchars c (List.mem_cons_self _ _)
            rw [List.mem_cons, List.mem_cons] at this
            rcases this with rfl | rfl | hfalse
            · exact absurd (List.mem_cons_self _ _) hcomma
            · exact absurd (List.mem_cons_self _ _) hspace
            · cases hfalse
        · rcases ih h2 with ⟨t', ht', hct'⟩
          exact ⟨t', List.mem_cons_of_mem _ ht', hct'⟩
        · have hlast : ((([',', ' '] : List Char)).getLastD 'x') ∈ k1 :=
            getLastD_mem_of_sfx k1 _ hk1 hsfx
          have hsp : (' ' : Char) ∈ k := by
            rw [hk12]
            exact List.mem_append.mpr (Or.inl (by simpa using hlast))
          exact absurd hsp hspace
      · have hhead : ((',' :: ' ' :: joinSep [',', ' '] (t2 :: r2)).headD 'x') ∈ k2 :=
          headD_mem_of_pfxOf k2 _ hk2 hpfx
        have hcm : (',' : Char) ∈ k := by
          rw [hk12]
          exact List.mem_append.mpr (Or.inr (by simpa using hhead))
        exact absurd hcm hcomma

theorem containsSub_joinSep_of_mem (k : List Char) (ts : List (List Char)) (hmem : k ∈ ts) :
    containsSub k (joinSep [',', ' '] ts) = true := by
  induction ts with
  | nil => cases hmem
  | cons t rest ih =>
    rcases rest with _ | ⟨t2, r2⟩
    · rw [List.mem_singleton] at hmem
      subst hmem
      simpa [joinSep] using containsSub_self k
    · have hj : joinSep [',', ' '] (t :: t2 :: r2)
          = t ++ (',' :: ' ' :: joinSep [',', ' '] (t2 :: r2)) := by
        simp [joinSep]
      rw [hj]
      rw [List.mem_cons] at hmem
      rcases hmem with rfl | hmem
      · exact containsSub_append_left _ _ _ (containsSub_self k)
      · exact containsSub_append_right _ _
          (containsSub_append_right _ _ (ih hmem) [',', ' ']) t

theorem toLowerL_append (a b : List Char) : toLowerL (a ++ b) = toLowerL a ++ toLowerL b :=
  List.map_append _ _ _

theorem toLowerL_joinSep (sep : List Char) (ts : List (List Char)) :
    toLowerL (joinSep sep ts) = joinSep (toLowerL sep) (ts.map toLowerL) := by
  induction ts with
  | nil => rfl
  | cons t rest ih =>
    rcases rest with _ | ⟨t2, r2⟩
    · rfl
    · show toLowerL (t ++ sep ++ joinSep sep (t2 :: r2)) = _
      rw [toLowerL_append, toLowerL_append, ih]
      rfl

theorem lowered_template (techs : List (List Char)) :
    toLowerL (question_prompt_templateL techs 3)
      = toLowerL PROMPT_HEAD.toList
        ++ (joinSep [',', ' '] (techs.map toLowerL)
            ++ (toLowerL PROMPT_MID.toList ++ (toLowerL (numChars 3)
                ++ toLowerL PROMPT_TAIL.toList))) := by
  unfold question_prompt_templateL
  rw [toLowerL_append, toLowerL_append, toLowerL_append, toLowerL_append, toLowerL_joinSep]
  rw [show toLowerL (", ".toList) = [',', ' '] from by decide]
  simp [List.append_assoc]

theorem beq_toList_eq (a b : String) : (a.toList == b.toList) = (a == b) := by
  rcases hab : a == b with _ | _
  · have hne : a ≠ b := by simpa using hab
    have hdata : a.data ≠ b.data := fun h => hne (congrArg String.mk h)
    rw [show a.toList = a.data from rfl, show b.toList = b.data from rfl]
    exact beq_eq_false_iff_ne.mpr hdata
  · have heq : a = b := by simpa using hab
    subst heq
    simp

theorem contains_map_toList (ts : List String) (a : String) :
    (ts.map String.toList).contains a.toList = ts.contains a := by
  induction ts with
  | nil => rfl
  | cons t r ih =>
    simp only [List.map_cons, List.contains_cons, ih, beq_toList_eq]

theorem map_toLowerL_keys (techs : List (List Char)) (htech : ∀ t ∈ techs, t ∈ bankKeysL) :
    techs.map toLowerL = techs := by
  have hkid : ∀ t ∈ bankKeysL, toLowerL t = t := by decide
  have h1 : techs.map toLowerL = techs.map id :=
    List.map_congr_left (fun t ht => hkid t (htech t ht))
  rw [h1, List.map_id]

theorem containsKey_template_example (techs : List (List Char)) (k : List Char)
    (hT : containsSub k (toLowerL PROMPT_TAIL.toList) = true) :
    containsSub k (toLowerL (question_prompt_templateL techs 3)) = true := by
  rw [lowered_template]
  apply containsSub_append_right
  apply containsSub_append_right
  apply containsSub_append_right
  apply containsSub_append_right
  exact hT

theorem containsKey_template_other (techs : List (List Char))
    (htech : ∀ t ∈ techs, t ∈ bankKeysL) (k : List Char)
    (hH : containsSub k (toLowerL PROMPT_HEAD.toList) = false)
    (hB : containsSub k (toLowerL PROMPT_MID.toList
        ++ (toLowerL (numChars 3) ++ toLowerL PROMPT_TAIL.toList)) = false)
    (hnl : ('\n' : Char) ∉ k) (hsp : (' ' : Char) ∉ k) (hcm : (',' : Char) ∉ k)
    (hkne : k ≠ [])
    (hcross : ∀ t' ∈ bankKeysL, containsSub k t' = true → t' = k) :
    containsSub k (toLowerL (question_prompt_templateL techs 3)) = techs.contains k := by
  have htl := map_toLowerL_keys techs htech
  cases hc : techs.contains k with
  | false =>
    rcases hcs : containsSub k (toLowerL (question_prompt_templateL techs 3)) with _ | _
    · rfl
    · exfalso
      rw [lowered_template, htl] at hcs
      rcases containsSub_split k _ _ hcs with h1 | h1 | ⟨k1, k2, hk12, hk1, hk2, hsfx, hpfx⟩
      · exact absurd h1 (by rw [hH]; simp)
      · rcases containsSub_split k _ _ h1 with h2 | h2 | ⟨k1, k2, hk12, hk1, hk2, hsfx, hpfx⟩
        · rcases containsSub_joinSep_split k techs hkne hcm hsp h2 with ⟨t, ht, hct⟩
          have hteq : t = k := hcross t (htech t ht) hct
          subst hteq
          have : techs.contains t = true := List.elem_iff.mpr ht
          rw [hc] at this
          exact Bool.noConfusion this
        · exact absurd h2 (by rw [hB]; simp)
        · have hhead := headD_mem_of_pfxOf k2 _ hk2 hpfx
          rw [show ((toLowerL PROMPT_MID.toList ++ (toLowerL (numChars 3)
              ++ toLowerL PROMPT_TAIL.toList)).headD 'x') = '\n' from by decide] at hhead
          exact hnl (hk12 ▸ List.mem_append.mpr (Or.inr hhead))
      · have hlast := getLastD_mem_of_sfx k1 _ hk1 hsfx
        rw [show ((toLowerL PROMPT_HEAD.toList).getLastD 'x') = ' ' from by decide] at hlast
        exact hsp (hk12 ▸ List.mem_append.mpr (Or.inl hlast))
  | true =>
    have hmem : k ∈ techs := List.elem_iff.mp hc
    rw [lowered_template, htl]
    apply containsSub_append_right
    apply containsSub_append_left
    exact containsSub_joinSep_of_mem k techs hmem

theorem containsKey_template (techs : List (List Char)) (htech : ∀ t ∈ techs, t ∈ bankKeysL) :
    ∀ k ∈ bankKeysL,
      containsSub k (toLowerL (question_prompt_templateL techs 3))
        = (k == "python".toList || k == "django".toList || techs.contains k) := by
  intro k hk
  fin_cases hk
  · rw [containsKey_template_example techs _ (by decide)]
    simp
  · rw [containsKey_template_example techs _ (by decide)]
    rw [show (("django".toList == "python".toList) = false) from by decide]
    rw [show (("django".toList == "django".toList) = true) from by decide]
    simp
  · rw [containsKey_template_other techs htech _ (by decide) (by decide) (by decide) (by decide)
      (by decide) (by decide) (by decide)]
    rw [show (("react".toList == "python".toList) = false) from by decide]
    rw [show (("react".toList == "django".toList) = false) from by decide]
    simp
  · rw [containsKey_template_other techs htech _ (by decide) (by decide) (by decide) (by decide)
      (by decide) (by decide) (by decide)]
    rw [show (("sql".toList == "python".toList) = false) from by decide]
    rw [show (("sql".toList == "django".toList) = false) from by decide]
    simp
  · rw [containsKey_template_other techs htech _ (by decide) (by decide) (by decide) (by decide)
      (by decide) (by decide) (by decide)]
    rw [show (("aws".toList == "python".toList) = false) from by decide]
    rw [show (("aws".toList == "django".toList) = false) from by decide]
    simp

theorem flatMap_congr_mem {α β : Type} (l : List α) (f g : α → List β)
    (h : ∀ a ∈ l, f a = g a) : l.flatMap f = l.flatMap g := by
  induction l with
  | nil => rfl
  | cons a t ih =>
    rw [List.flatMap_cons, List.flatMap_cons, h a (List.mem_cons_self a t),
      ih (fun a' ha' => h a' (List.mem_cons_of_mem _ ha'))]

theorem matched_template (techs : List (List Char)) (htech : ∀ t ∈ techs, t ∈ bankKeysL) :
    matchedKeysL (toLowerL (question_prompt_templateL techs 3))
      = bankKeysL.filter (fun k => k == "python".toList || k == "django".toList
          || techs.contains k) := by
  unfold matchedKeysL
  exact List.filter_congr (containsKey_template techs htech)

theorem bank_filter_flatMap (techs : List String) :
    (bankKeysL.filter (fun k => k == "python".toList || k == "django".toList
        || (techs.map String.toList).contains k)).flatMap (fun k => (bankLookupL k).take 3)
      = ((RULE_BASED_QUESTION_BANK.filter (fun p => p.1 == "python" || p.1 == "django"
          || techs.contains p.1)).flatMap (fun p => p.2.take 3)).map String.toList := by
  have hlook : ∀ pr ∈ bankPairsL, bankLookupL pr.1 = pr.2 := by decide
  rw [show bankKeysL = bankPairsL.map Prod.fst from rfl]
  rw [List.filter_map, List.flatMap_map]
  have hstep : (bankPairsL.filter ((fun k => k == "python".toList || k == "django".toList
        || (techs.map String.toList).contains k) ∘ Prod.fst)).flatMap
          (fun pr => (bankLookupL pr.1).take 3)
      = (bankPairsL.filter ((fun k => k == "python".toList || k == "django".toList
        || (techs.map String.toList).contains k) ∘ Prod.fst)).flatMap
          (fun pr => pr.2.take 3) := by
    apply flatMap_congr_mem
    intro pr hpr
    rw [hlook pr (List.mem_of_mem_filter hpr)]
  rw [hstep]
  rw [show bankPairsL
      = RULE_BASED_QUESTION_BANK.map (fun p => (p.1.toList, p.2.map String.toList)) from rfl]
  rw [List.filter_map, List.flatMap_map]
  have hpred : ∀ p ∈ RULE_BASED_QUESTION_BANK,
      (((fun k => k == "python".toList || k == "django".toList
          || (techs.map String.toList).contains k) ∘ Prod.fst)
        ∘ fun p => (p.1.toList, p.2.map String.toList)) p
      = (fun p => p.1 == "python" || p.1 == "django" || techs.contains p.1) p := by
    intro p _
    simp only [Function.comp]
    rw [show ("python" : String).toList = String.toList "python" from rfl]
    rw [beq_toList_eq, beq_toList_eq, contains_map_toList]
  rw [List.filter_congr hpred]
  rw [List.map_flatMap]
  apply flatMap_congr_mem
  intro p _
  simp only []
  rw [← List.map_take]

/-- C4 counterexample: for the bank-key token list `["sql", "react"]` the
offline fallback does not return the per-token groups in input order — it
returns python, django, react, sql groups in Question-Bank key order, with
python and django injected by the prompt's own example lines. -/
theorem offline_group_order_counterexample :
    ruleBasedFromPrompt (question_prompt_template ["sql", "react"] 3)
      ≠ numberedJoin (["sql", "react"].flatMap (fun k => (bankLookup k).take 3)) ∧
    ruleBasedFromPrompt (question_prompt_template ["sql", "react"] 3)
      = numberedJoin (["python", "django", "react", "sql"].flatMap
          (fun k => (bankLookup k).take 3)) := by decide

/-- C4 amended: for every technology-token list whose tokens are all
Question-Bank keys, the offline fallback on the built prompt emits the first
3 canned questions of every matched bank entry, where the matched entries
are those whose key is `python` or `django` (always matched via the prompt's
output-format example lines) or appears in the input list — concatenated in
Question-Bank order, not input order, each entry's questions in bank
order. -/
theorem offline_fallback_bank_order (techs : List String)
    (htech : ∀ t ∈ techs, t ∈ RULE_BASED_QUESTION_BANK.map Prod.fst) :
    ruleBasedFromPrompt (question_prompt_template techs 3)
      = numberedJoin ((offlineMatchedBank techs).flatMap (fun p => p.2.take 3)) := by
  have htechL : ∀ tl ∈ techs.map String.toList, tl ∈ bankKeysL := by
    intro tl htl
    rcases List.mem_map.mp htl with ⟨t, ht, rfl⟩
    rcases List.mem_map.mp (htech t ht) with ⟨p, hp, rfl⟩
    show p.1.toList ∈ (RULE_BASED_QUESTION_BANK.map
      (fun p => (p.1.toList, p.2.map String.toList))).map Prod.fst
    rw [List.map_map]
    exact List.mem_map.mpr ⟨p, hp, rfl⟩
  have hmt := matched_template (techs.map String.toList) htechL
  have hpy_mem : ("python".toList) ∈ bankKeysL.filter
      (fun k => k == "python".toList || k == "django".toList
        || (techs.map String.toList).contains k) :=
    List.mem_filter.mpr ⟨by decide, by simp⟩
  have hne : matchedKeysL
      (toLowerL (question_prompt_templateL (techs.map String.toList) 3)) ≠ [] := by
    rw [hmt]
    intro h0
    rw [h0] at hpy_mem
    cases hpy_mem
  have hrender : ruleBasedL (question_prompt_templateL (techs.map String.toList) 3)
      = joinNl (numberLines
          ((matchedKeysL (toLowerL (question_prompt_templateL (techs.map String.toList) 3))).flatMap
            (fun k => (bankLookupL k).take 3))) := by
    show (if (matchedKeysL
        (toLowerL (question_prompt_templateL (techs.map String.toList) 3))).isEmpty
        then FALLBACK_MESSAGE.toList else _) = _
    rw [if_neg (by simpa using hne)]
  show String.mk (ruleBasedL (question_prompt_templateL (techs.map String.toList) 3)) = _
  rw [hrender, hmt]
  unfold numberedJoin offlineMatchedBank
  exact congrArg (fun l => String.mk (joinNl (numberLines l))) (bank_filter_flatMap techs)

/-- Witness for C4 at the concrete bank-key list `["sql"]`. -/
theorem offline_fallback_bank_order_witness :
    (∀ t ∈ (["sql"] : List String), t ∈ RULE_BASED_QUESTION_BANK.map Prod.fst) ∧
    ruleBasedFromPrompt (question_prompt_template ["sql"] 3)
      = numberedJoin ((offlineMatchedBank ["sql"]).flatMap (fun p => p.2.take 3)) :=
  ⟨by decide, offline_fallback_bank_order ["sql"] (by decide)⟩
